import Mathlib

/-!
# Verification of `mtga/models/card_set.py`

A shallow embedding of the container model of the python-mtga repository:
`Set` (card sets), `Pool` (mutable ordered containers of card references),
`Zone` (identity reconciliation), `Deck` (authored lists, serialization) and
`Library` (in-game copy of a deck).

Python's in-place mutation is modelled by explicit state passing: an operation
that mutates one pool returns the new pool; an operation that mutates two pools
returns both.  Exceptions are modelled by `Except`/`Option` error components;
when an exception aborts a loop midway, the partially mutated state is returned
alongside the error, matching the way a raised Python exception leaves prior
mutations in place.
-/

namespace Mtga

/-- The card reference consumed by the container layer.  The `Card` class lives
in `mtga/models/card.py`, outside the verified core; the fields here are the
ones `card_set.py` reads (`mtga_id`, `set_number`, `name` for search, and the
catalog payload forwarded by `Deck.generate_library`). -/
structure Card where
  name : String
  pretty_name : String
  cost : List String
  color_identity : List String
  card_type : String
  sub_types : String
  set : String
  set_number : Int
  mtga_id : Int
  deriving DecidableEq, Repr

/-- The in-game card record.  `GameCard` also lives in `mtga/models/card.py`;
the container layer reads `game_id`, `previous_iids`, `mtga_id`,
`owner_seat_id` and calls `transform_to`. -/
structure GameCard where
  name : String
  pretty_name : String
  cost : List String
  color_identity : List String
  card_type : String
  sub_types : String
  set : String
  set_number : Int
  mtga_id : Int
  owner_seat_id : Int
  game_id : Int
  previous_iids : List Int
  deriving DecidableEq, Repr

/-- Modelled from the spec: the `GameCard` constructor is external
(`mtga/models/card.py`).  `Deck.generate_library` calls
`GameCard(name, pretty_name, cost, color_identity, card_type, sub_types, set,
set_number, mtga_id, owner_id, -1)`; per the spec's Card Reference contract the
instance id starts at the `-1` sentinel and the previous-instance-id history
starts empty. -/
def GameCard.make (c : Card) (owner_id : Int) (game_id : Int) : GameCard :=
  { name := c.name
    pretty_name := c.pretty_name
    cost := c.cost
    color_identity := c.color_identity
    card_type := c.card_type
    sub_types := c.sub_types
    set := c.set
    set_number := c.set_number
    mtga_id := c.mtga_id
    owner_seat_id := owner_id
    game_id := game_id
    previous_iids := [] }

/-- Modelled from the spec: `transform_to` is external
(`mtga/models/card.py`); per the spec's Card Reference contract,
`transformTo(catalogId)` "mutates the record's catalog identity in place". -/
def GameCard.transform_to (c : GameCard) (card_id : Int) : GameCard :=
  { c with mtga_id := card_id }

/-- An ability object stored in a pool's `abilities` side table.  External to
the verified core; only its identity matters here. -/
structure Ability where
  ability_id : Int
  deriving DecidableEq, Repr

/-- A value stored in a pool's `lookup` dict: `lookup = {**abilities}` merged
with the pool's cards, so a lookup hit is either an ability or a card. -/
inductive Entry where
  | ability (a : Ability)
  | card (c : Card)
  deriving DecidableEq, Repr

/-! ## Python dict on `Int` keys, as an association list

`Pool.lookup` and `Pool.abilities` are Python dicts keyed by ids.  Keys are
unique; inserting an existing key replaces its value in place. -/

/-- Python `d[k] = v`: replace in place if the key exists, else append. -/
def dictInsert (d : List (Int × Entry)) (k : Int) (v : Entry) : List (Int × Entry) :=
  if d.any (fun p => p.1 == k) then
    d.map (fun p => if p.1 == k then (k, v) else p)
  else
    d ++ [(k, v)]

/-- Python `k in d.keys()`. -/
def dictHasKey (d : List (Int × Entry)) (k : Int) : Bool :=
  d.any (fun p => p.1 == k)

/-- Python `d[k]` (for a present key; `none` when absent). -/
def dictGet (d : List (Int × Entry)) (k : Int) : Option Entry :=
  (d.find? (fun p => p.1 == k)).map (fun p => p.2)

/-! ## Pool -/

/-- Constructor effect: `Pool.__init__` builds `self.lookup = {**abilities}` and then assigns
`self.lookup[card.mtga_id] = card` for each initial card, in order. -/
def buildLookup (abilities : List (Int × Ability)) (cards : List Card) :
    List (Int × Entry) :=
  cards.foldl (fun d c => dictInsert d c.mtga_id (Entry.card c))
    (abilities.map (fun p => (p.1, Entry.ability p.2)))

/-- The `Pool` object: `pool_name`, the `cards` sequence (the source of truth),
the `abilities` side table, and the `lookup` accelerator dict.  `lookup` is a
stored field: it is filled at construction and no later operation writes it. -/
structure Pool where
  pool_name : String
  abilities : List (Int × Ability)
  cards : List Card
  lookup : List (Int × Entry)
  deriving DecidableEq, Repr

/-- The constructor `Pool(pool_name, cards, abilities)`, which is the only
place `lookup` is written. -/
def Pool.make (pool_name : String) (cards : List Card)
    (abilities : List (Int × Ability)) : Pool :=
  { pool_name := pool_name
    abilities := abilities
    cards := cards
    lookup := buildLookup abilities cards }

/-- Python loop `while self.cards: self.cards.pop()` — repeatedly drop the last element
until the list is empty. -/
def popAll (l : List Card) : List Card :=
  if l = [] then [] else popAll l.dropLast
termination_by l.length
decreasing_by
  simp only [List.length_dropLast]
  cases l with
  | nil => simp_all
  | cons a t => simp [List.length_cons]

/-- Method `Pool.transfer_all_to(other_pool)`: append every card of `self.cards` to
`other_pool.cards`, then pop `self.cards` empty.  Returns
(new self, new other); the two pools are distinct objects (the aliased call is
modelled separately by `aliasedStep`). -/
def Pool.transfer_all_to (self other : Pool) : Pool × Pool :=
  let other' := self.cards.foldl
    (fun o c => { o with cards := o.cards ++ [c] }) other
  let self' := { self with cards := popAll self.cards }
  (self', other')

/-! ## The aliased `transfer_all_to` loop

`for card in self.cards: other_pool.cards.append(card)` iterates by index.
When `other_pool` *is* `self`, every appended card lands in the list being
iterated.  One machine state is the iterator index plus the current list. -/

/-- One step of the aliased loop: if the index is in range, append the element
at the index and advance; otherwise the loop has exited and the state is
final. -/
def aliasedStep (s : Nat × List Card) : Nat × List Card :=
  if h : s.1 < s.2.length then (s.1 + 1, s.2 ++ [s.2.get ⟨s.1, h⟩]) else s

/-- The aliased loop after `k` steps from a start state. -/
def aliasedIter (k : Nat) (s : Nat × List Card) : Nat × List Card :=
  match k with
  | 0 => s
  | k + 1 => aliasedIter k (aliasedStep s)

/-- One step of the distinct-pool loop: the iterated list `src` is never
mutated, only the destination grows. -/
def distinctStep (s : Nat × List Card × List Card) : Nat × List Card × List Card :=
  if h : s.1 < s.2.1.length then
    (s.1 + 1, s.2.1, s.2.2 ++ [s.2.1.get ⟨s.1, h⟩])
  else s

/-- The distinct-pool loop after `k` steps. -/
def distinctIter (k : Nat) (s : Nat × List Card × List Card) :
    Nat × List Card × List Card :=
  match k with
  | 0 => s
  | k + 1 => distinctIter k (distinctStep s)

/-! ## Search -/

/-- A search key, passed to `search`/`find_one`: callers pass either an int or
a string ("allow you to pass in cards or ids or searches"). -/
inductive Key where
  | int (n : Int)
  | str (s : String)
  deriving DecidableEq, Repr

/-- The numeric value of a nonempty run of decimal digits. -/
def digitsToNat (cs : List Char) : Nat :=
  cs.foldl (fun acc c => acc * 10 + (c.toNat - 48)) 0

/-- Python `int(s)` on a string: optional surrounding whitespace, optional
sign, a nonempty run of digits; anything else raises `ValueError`. -/
def pyStrToInt (s : String) : Option Int :=
  let t := (((s.data.dropWhile Char.isWhitespace).reverse).dropWhile
    Char.isWhitespace).reverse
  match t with
  | [] => none
  | '-' :: rest =>
    if rest ≠ [] ∧ rest.all Char.isDigit then some (-(digitsToNat rest : Int))
    else none
  | '+' :: rest =>
    if rest ≠ [] ∧ rest.all Char.isDigit then some (digitsToNat rest : Int)
    else none
  | _ =>
    if t.all Char.isDigit then some (digitsToNat t : Int) else none

/-- Python `int(id_or_keyword)`: the identity on ints, string parsing on
strings (`None` standing for the caught `ValueError`). -/
def Key.toInt? : Key → Option Int
  | .int n => some n
  | .str s => pyStrToInt s

/-- Python `str(id_or_keyword)`. -/
def Key.toStr : Key → String
  | .int n => toString n
  | .str s => s

/-- Python normalization re.sub of the class [^0-9a-zA-Z_] to the empty string over keyword_as_str.lower(): lowercase, then
keep only ASCII alphanumerics and underscores. -/
def cleanKeyword (s : String) : String :=
  ((s.data.map Char.toLower).filter (fun ch => ch.isAlphanum || ch == '_')).asString

/-- Whether `needle` occurs contiguously inside `hay`. -/
def subOccurs : List Char → List Char → Bool
  | needle, [] => needle.isEmpty
  | needle, c :: t => needle.isPrefixOf (c :: t) || subOccurs needle t

/-- Python `needle in hay` on strings: substring containment. -/
def strContains (hay needle : String) : Bool :=
  subOccurs needle.toList hay.toList

/-- The candidate integer form of the keyword after `search`'s normalization:
`int()` result, except that a value below 10000 that is not already a `lookup`
key is discarded (`keyword_as_int = None`). -/
def searchKeyInt (p : Pool) (key : Key) : Option Int :=
  match key.toInt? with
  | none => none
  | some n => if n < 10000 && !dictHasKey p.lookup n then none else some n

/-- The scan loop of `search`: per card, an exact numeric match on
`mtga_id`/`set_number` returns that single card, discarding the accumulator;
an exact normalized-name match returns that single card when
`direct_match_returns_single` is set; a substring match accumulates. -/
def searchScan (ki : Option Int) (kc : String) (direct : Bool)
    (acc : List Entry) : List Card → List Entry
  | [] => acc
  | c :: rest =>
    if (match ki with
        | some n => n == c.mtga_id || n == c.set_number
        | none => false) then [Entry.card c]
    else if kc == c.name && direct then [Entry.card c]
    else if strContains c.name kc then
      searchScan ki kc direct (acc ++ [Entry.card c]) rest
    else searchScan ki kc direct acc rest

/-- Method `Pool.search(id_or_keyword, direct_match_returns_single=False)`.  The fast
path fires when the normalized integer key is truthy (nonzero) and is a
`lookup` key, returning the single `lookup` hit; otherwise the scan loop
runs. -/
def Pool.search (p : Pool) (key : Key) (direct : Bool := false) : List Entry :=
  let ki := searchKeyInt p key
  let kc := cleanKeyword key.toStr
  match ki with
  | some n =>
    if n != 0 && dictHasKey p.lookup n then
      match dictGet p.lookup n with
      | some e => [e]
      | none => searchScan (some n) kc direct [] p.cards
    else searchScan (some n) kc direct [] p.cards
  | none => searchScan none kc direct [] p.cards

/-- The error kinds raised by `find_one` and `transfer_card_to` (all are
`ValueError` in Python; the three raise sites are distinguished here). -/
inductive FindErr where
  | notFound
  | ambiguous
  | removeMissing
  deriving DecidableEq, Repr

/-- Method `Pool.find_one(id_or_keyword)`: `result = set(self.search(...))`; raise
when the set is empty, raise when it holds more than one distinct element,
else return its single element. -/
def Pool.find_one (p : Pool) (key : Key) : Except FindErr Entry :=
  let result := (p.search key).dedup
  match result with
  | [] => .error .notFound
  | [e] => .ok e
  | _ => .error .ambiguous

/-! ## Single and multi-card transfer -/

/-- The argument of `transfer_card_to`: a direct card reference, or anything
else, which is resolved through `find_one`. -/
inductive CardOrKey where
  | card (c : Card)
  | key (k : Key)
  deriving DecidableEq, Repr

/-- Resolution of the argument: `res = card` for a direct card argument, `res = self.find_one(card)`
otherwise (which can raise). -/
def resolveArg (self : Pool) (x : CardOrKey) : Except FindErr Entry :=
  match x with
  | .card c => .ok (Entry.card c)
  | .key k => self.find_one k

/-- Method `Pool.transfer_card_to(card, other_pool)`: resolve a non-`Card` argument
via `find_one` (which can raise), then `self.cards.remove(res)` (removes the
first occurrence; raises when absent — in particular a `find_one` hit that is
an ability object is never in `cards`), then append to `other_pool.cards`. -/
def Pool.transfer_card_to (self other : Pool) (x : CardOrKey) :
    Except FindErr (Pool × Pool) :=
  match resolveArg self x with
  | .error e => .error e
  | .ok (Entry.ability _) => .error .removeMissing
  | .ok (Entry.card c) =>
    if c ∈ self.cards then
      .ok ({ self with cards := self.cards.erase c },
           { other with cards := other.cards ++ [c] })
    else .error .removeMissing

/-- Method `Pool.transfer_cards_to(cards, other_pool)`: transfer one at a time; an
exception propagates immediately and the pools keep the mutations already
made for the earlier cards. -/
def Pool.transfer_cards_to (self other : Pool) (xs : List CardOrKey) :
    (Pool × Pool) × Option FindErr :=
  match xs with
  | [] => ((self, other), none)
  | x :: rest =>
    match self.transfer_card_to other x with
    | .error e => ((self, other), some e)
    | .ok (self', other') => self'.transfer_cards_to other' rest

/-! ## Zone -/

/-- The fatal identity-conflict exception raised by
`Zone.match_game_id_to_card`. -/
inductive MatchErr where
  | identityConflict
  deriving DecidableEq, Repr

/-- The loop body of `Zone.match_game_id_to_card` applied over the zone's
cards.  Per card, in order: if the card matches by instance id (current
`game_id` or `previous_iids` history), a catalog id already resolved to a
third value raises (aborting the loop, later cards untouched), otherwise the
card transforms to `card_id`; else if the card's catalog id already equals
`card_id` and its instance id is still `-1`, the instance id is assigned (the
anomalous-recovery path).  Returns the card list after the call together with
the optional exception. -/
def matchLoop (instance_id card_id : Int) :
    List GameCard → List GameCard × Option MatchErr
  | [] => ([], none)
  | c :: rest =>
    if c.game_id == instance_id || c.previous_iids.contains instance_id then
      if c.mtga_id != -1 && c.mtga_id != card_id then
        (c :: rest, some .identityConflict)
      else
        let r := matchLoop instance_id card_id rest
        (c.transform_to card_id :: r.1, r.2)
    else if c.mtga_id == card_id then
      let c' := if c.game_id == -1 then { c with game_id := instance_id } else c
      let r := matchLoop instance_id card_id rest
      (c' :: r.1, r.2)
    else
      let r := matchLoop instance_id card_id rest
      (c :: r.1, r.2)

/-- A `Zone`: a `Pool` whose cards are `GameCard`s (the method asserts
`isinstance(card, GameCard)`), plus a `zone_id`. -/
structure Zone where
  pool_name : String
  zone_id : Int
  cards : List GameCard
  deriving DecidableEq, Repr

/-- Method `Zone.match_game_id_to_card(instance_id, card_id)`: run the matching loop
over `self.cards`; the zone keeps the mutations made before any raise. -/
def Zone.match_game_id_to_card (z : Zone) (instance_id card_id : Int) :
    Zone × Option MatchErr :=
  let r := matchLoop instance_id card_id z.cards
  ({ z with cards := r.1 }, r.2)

/-! ## Deck and Library -/

/-- A `Deck`: a `Pool` plus a `deck_id`.  `Deck(pool_name, deck_id)` starts
with no cards and an empty lookup; cards are appended afterwards. -/
structure Deck where
  pool_name : String
  deck_id : Int
  cards : List Card
  deriving DecidableEq, Repr

/-- A `Library`: a `Deck` and a `Zone` combined, with an owner seat. -/
structure Library where
  pool_name : String
  deck_id : Int
  owner_seat_id : Int
  zone_id : Int
  cards : List GameCard
  deriving DecidableEq, Repr

/-- Method `Deck.generate_library(owner_id=-1)`: build
`Library(self.pool_name, self.deck_id, owner_id, -1)` and append, for each
card of the deck in order, a freshly constructed `GameCard` carrying the
card's catalog data, the owner id, and game id `-1`. -/
def Deck.generate_library (d : Deck) (owner_id : Int) : Library :=
  let library : Library :=
    { pool_name := d.pool_name
      deck_id := d.deck_id
      owner_seat_id := owner_id
      zone_id := -1
      cards := [] }
  d.cards.foldl
    (fun l c => { l with cards := l.cards ++ [GameCard.make c owner_id (-1)] })
    library

/-! ## Collapsed serialization (`Deck.to_serializable(transform_to_counted=True)`)

A serialized card group is the card's external record (modelled by the card
value itself) plus the running `count_in_deck`. -/

/-- One entry of the `card_dict` built by the collapsing loop: the key
(`mtga_id`), the record of the first card seen with that id, and the running
count. -/
structure CountedGroup where
  mtga_id : Int
  record : Card
  count : Nat
  deriving DecidableEq, Repr

/-- One iteration of `for card in self.cards`: a first occurrence inserts the
card's serialized record with count 1 at the end of the (insertion-ordered)
dict; a repeat occurrence bumps the count in place. -/
def bumpGroup (gs : List CountedGroup) (c : Card) : List CountedGroup :=
  if gs.any (fun g => g.mtga_id == c.mtga_id) then
    gs.map (fun g =>
      if g.mtga_id == c.mtga_id then { g with count := g.count + 1 } else g)
  else
    gs ++ [{ mtga_id := c.mtga_id, record := c, count := 1 }]

/-- The `card_dict` of the collapsing loop, in insertion (first-seen) order. -/
def buildCardDict (cards : List Card) : List CountedGroup :=
  cards.foldl bumpGroup []

/-- Stable ascending insertion by `count` — the behavior of Python's
`list.sort(key=lambda x: x["count_in_deck"])`, which is a stable ascending
sort. -/
def insertByCount (x : CountedGroup) : List CountedGroup → List CountedGroup
  | [] => [x]
  | y :: ys => if x.count ≤ y.count then x :: y :: ys else y :: insertByCount x ys

/-- Stable ascending sort by `count` (insertion sort). -/
def sortByCountAsc : List CountedGroup → List CountedGroup
  | [] => []
  | x :: xs => insertByCount x (sortByCountAsc xs)

/-- The `cards` list emitted by
`Deck.to_serializable(transform_to_counted=True)`: the grouped dict's values,
sorted ascending by count (stable) and then reversed. -/
def Deck.collapsedCards (d : Deck) : List CountedGroup :=
  (sortByCountAsc (buildCardDict d.cards)).reverse

/-- Method `Pool.count(mtga_id)` (inherited by `Deck`): the number of cards with the
given catalog id. -/
def countById (cards : List Card) (mtga_id : Int) : Nat :=
  (cards.filter (fun c => c.mtga_id == mtga_id)).length

/-- The catalog ids of a card sequence in first-seen order (the insertion
order of the Python dict). -/
def firstSeenIds (cards : List Card) : List Int :=
  cards.foldl (fun acc c => if acc.contains c.mtga_id then acc else acc ++ [c.mtga_id]) []

/-! ## Concrete fixtures used by witnesses and counterexamples -/

/-- "Lightning Bolt" from the spec's worked example. -/
def cardBolt : Card :=
  { name := "lightning_bolt", pretty_name := "Lightning Bolt", cost := ["R"],
    color_identity := ["R"], card_type := "Instant", sub_types := "",
    set := "M19", set_number := 1, mtga_id := 1001 }

/-- "Lightning Strike" from the spec's worked example. -/
def cardStrike : Card :=
  { name := "lightning_strike", pretty_name := "Lightning Strike", cost := ["1", "R"],
    color_identity := ["R"], card_type := "Instant", sub_types := "",
    set := "M19", set_number := 2, mtga_id := 1002 }

/-- A card whose in-set number (7) is below 10000 while its catalog id is
not. -/
def cardLowSetNumber : Card :=
  { name := "bolt", pretty_name := "Bolt", cost := [], color_identity := [],
    card_type := "Instant", sub_types := "", set := "M19",
    set_number := 7, mtga_id := 20000 }

/-- The spec's two-card example pool. -/
def poolExample : Pool := Pool.make "example" [cardBolt, cardStrike] []

/-- A pool holding only `cardLowSetNumber`. -/
def poolLowSetNumber : Pool := Pool.make "low" [cardLowSetNumber] []

/-- An in-game card with instance id 55 and unresolved catalog id. -/
def gameCardIid55 : GameCard :=
  { name := "unknown", pretty_name := "Unknown", cost := [], color_identity := [],
    card_type := "", sub_types := "", set := "", set_number := 1,
    mtga_id := -1, owner_seat_id := 1, game_id := 55, previous_iids := [] }

/-- A direct `pool.cards.append(card)` (as in `Deck.from_dict` and
`Deck.generate_library`), the only direct-append mutation of a pool. -/
def Pool.append_card (p : Pool) (c : Card) : Pool :=
  { p with cards := p.cards ++ [c] }

/-- A direct `pool.cards.remove(card)`: drop the first occurrence. -/
def Pool.remove_card (p : Pool) (c : Card) : Pool :=
  { p with cards := p.cards.erase c }

/-- The first card of the scan matched by the exact numeric test of
`search` (`keyword_as_int in [card.mtga_id, card.set_number]`). -/
def firstNumericMatch (cards : List Card) (n : Int) : Option Card :=
  cards.find? (fun c => n == c.mtga_id || n == c.set_number)

/-- Whether a zone card is selected by instance id:
`card.game_id == instance_id or instance_id in card.previous_iids`. -/
def instMatches (instance_id : Int) (c : GameCard) : Bool :=
  c.game_id == instance_id || c.previous_iids.contains instance_id

/-- Whether a zone card triggers the identity-conflict raise: selected by
instance id while its catalog id is resolved to a third value. -/
def isConflict (instance_id card_id : Int) (c : GameCard) : Bool :=
  instMatches instance_id c && (c.mtga_id != -1 && c.mtga_id != card_id)

/-- What one loop iteration of `match_game_id_to_card` does to one
non-conflicting card: transform on an instance-id match, assign the instance
id on the catalog-id fallback with an unset instance id, leave the card alone
otherwise. -/
def stepCard (instance_id card_id : Int) (c : GameCard) : GameCard :=
  if instMatches instance_id c then c.transform_to card_id
  else if c.mtga_id == card_id && c.game_id == -1 then
    { c with game_id := instance_id }
  else c

/-- The position of the first conflicting card, if any. -/
def firstConflictIdx (instance_id card_id : Int) : List GameCard → Option Nat
  | [] => none
  | c :: rest =>
    if isConflict instance_id card_id c then some 0
    else (firstConflictIdx instance_id card_id rest).map (fun j => j + 1)

/-- An in-game card already resolved to catalog id 1001 with instance id
55. -/
def gameCardResolved : GameCard :=
  { name := "lightning_bolt", pretty_name := "Lightning Bolt", cost := ["R"],
    color_identity := ["R"], card_type := "Instant", sub_types := "",
    set := "M19", set_number := 1, mtga_id := 1001, owner_seat_id := 1,
    game_id := 55, previous_iids := [] }

/-- A zone that holds two unresolved cards, both with instance id 55. -/
def zoneTwoIid55 : Zone :=
  { pool_name := "zone", zone_id := 3, cards := [gameCardIid55, gameCardIid55] }

/-- A zone holding a card already resolved to 1001 under instance id 55. -/
def zoneResolved : Zone :=
  { pool_name := "zone", zone_id := 3, cards := [gameCardResolved] }

/-- The tie-order deck: one copy each of catalog ids 7 and 9. -/
def deckTie : Deck :=
  { pool_name := "tie", deck_id := 5,
    cards := [{ cardBolt with mtga_id := 7 }, { cardStrike with mtga_id := 9 }] }

/-- The spec's collapse example: two copies of catalog id 7, one of 9. -/
def deckTwoSevenOneNine : Deck :=
  { pool_name := "example", deck_id := 5,
    cards := [{ cardBolt with mtga_id := 7 }, { cardBolt with mtga_id := 7 },
              { cardStrike with mtga_id := 9 }] }

/-- A three-card deck for the library-generation example. -/
def deckThree : Deck :=
  { pool_name := "threedeck", deck_id := 8,
    cards := [cardBolt, cardStrike, cardLowSetNumber] }

/-- An empty destination pool. -/
def poolEmpty : Pool := Pool.make "dest" [] []

/-! # Theorems -/

/-! ## Appending a list to a pool's cards -/

theorem foldl_append_cards (cs : List Card) (o : Pool) :
    cs.foldl (fun o c => { o with cards := o.cards ++ [c] }) o
      = { o with cards := o.cards ++ cs } := by
  induction cs generalizing o with
  | nil => simp
  | cons c rest ih => simp [List.foldl_cons, ih, List.append_assoc]

theorem popAll_eq_nil (l : List Card) : popAll l = [] := by
  have h : ∀ (n : Nat) (l : List Card), l.length ≤ n → popAll l = [] := by
    intro n
    induction n with
    | zero =>
      intro l hl
      rw [popAll]
      simp [List.length_eq_zero.mp (Nat.le_zero.mp hl)]
    | succ n ih =>
      intro l hl
      rw [popAll]
      split
      · rfl
      · exact ih _ (by rw [List.length_dropLast]; omega)
  exact h l.length l le_rfl

/-- C5: `transfer_all_to` moves every card of the source to the end of the
destination, in order, and leaves the source empty.  The two pools are
distinct objects (modelled as separate values; aliasing is the subject of the
termination analysis). -/
theorem transfer_all_to_spec (A B : Pool) :
    (A.transfer_all_to B).1.cards = [] ∧
    (A.transfer_all_to B).2.cards = B.cards ++ A.cards := by
  constructor
  · simp [Pool.transfer_all_to, popAll_eq_nil]
  · simp [Pool.transfer_all_to, foldl_append_cards]

/-! ## Termination of the transfer loop -/

theorem distinctIter_closed (k i : Nat) (src dst : List Card)
    (h : i + k ≤ src.length) :
    (distinctIter k (i, src, dst)).1 = i + k ∧
    (distinctIter k (i, src, dst)).2.1 = src := by
  induction k generalizing i dst with
  | zero => simp [distinctIter]
  | succ k ih =>
    have hi : i < src.length := by omega
    rw [distinctIter]
    have hstep : distinctStep (i, src, dst)
        = (i + 1, src, dst ++ [src.get ⟨i, hi⟩]) := by
      simp [distinctStep, hi]
    rw [hstep]
    have h2 := ih (i + 1) (dst ++ [src.get ⟨i, hi⟩]) (by omega)
    refine ⟨?_, h2.2⟩
    rw [h2.1]
    omega


theorem aliasedIter_closed (k i m : Nat) (l : List Card) (hm : 1 ≤ m)
    (hl : l.length = i + m) :
    (aliasedIter k (i, l)).1 = i + k ∧
    (aliasedIter k (i, l)).2.length = i + k + m := by
  induction k generalizing i l with
  | zero => simp [aliasedIter, hl]
  | succ k ih =>
    have hi : i < l.length := by omega
    rw [aliasedIter]
    have hstep : aliasedStep (i, l) = (i + 1, l ++ [l.get ⟨i, hi⟩]) := by
      simp [aliasedStep, hi]
    rw [hstep]
    have h2 := ih (i + 1) (l ++ [l.get ⟨i, hi⟩]) (by simp [hl]; omega)
    refine ⟨by rw [h2.1]; omega, by rw [h2.2]; omega⟩

/-- C10: `transfer_all_to` terminates only for a distinct destination.  The
`for card in self.cards` loop is an index iterator; with a distinct
destination the iterated list never changes, so the loop guard fails after
exactly `src.length` steps, while in the aliased call
`P.transfer_all_to(P)` each iteration appends to the list being iterated, so
for a nonempty pool the guard holds after every number of steps and the loop
never exits. -/
theorem transfer_all_to_termination :
    (∀ src dst : List Card,
      ¬ (distinctIter src.length (0, src, dst)).1 <
          (distinctIter src.length (0, src, dst)).2.1.length) ∧
    (∀ cs : List Card, cs ≠ [] → ∀ k : Nat,
      (aliasedIter k (0, cs)).1 < (aliasedIter k (0, cs)).2.length) := by
  constructor
  · intro src dst
    have h := distinctIter_closed src.length 0 src dst (by omega)
    rw [h.1, h.2]
    omega
  · intro cs hcs k
    have hm : 1 ≤ cs.length := by
      cases cs with
      | nil => exact absurd rfl hcs
      | cons a t => simp
    have h := aliasedIter_closed k 0 cs.length cs hm (by omega)
    rw [h.1, h.2]
    omega

/-- Witness for C10: on the singleton pool `[cardBolt]`, the aliased loop's
guard still holds after 4 steps. -/
theorem transfer_all_to_termination_witness :
    ([cardBolt] ≠ ([] : List Card)) ∧
    (aliasedIter 4 (0, [cardBolt])).1 < (aliasedIter 4 (0, [cardBolt])).2.length :=
  ⟨by simp, transfer_all_to_termination.2 [cardBolt] (by simp) 4⟩

/-! ## The lookup snapshot -/

theorem transfer_card_to_lookup (A B : Pool) (x : CardOrKey) (A' B' : Pool)
    (h : A.transfer_card_to B x = .ok (A', B')) :
    A'.lookup = A.lookup ∧ B'.lookup = B.lookup := by
  rw [Pool.transfer_card_to] at h
  cases hres : resolveArg A x with
  | error e =>
    rw [hres] at h
    simp at h
  | ok entry =>
    rw [hres] at h
    cases entry with
    | ability a => simp at h
    | card c =>
      by_cases hc : c ∈ A.cards
      · simp only [hc, if_pos] at h
        rw [Except.ok.injEq, Prod.mk.injEq] at h
        obtain ⟨h1, h2⟩ := h
        rw [← h1, ← h2]
        exact ⟨rfl, rfl⟩
      · simp [hc] at h

theorem transfer_cards_to_lookup (xs : List CardOrKey) (A B : Pool) :
    ((A.transfer_cards_to B xs).1.1.lookup = A.lookup ∧
     (A.transfer_cards_to B xs).1.2.lookup = B.lookup) := by
  induction xs generalizing A B with
  | nil => simp [Pool.transfer_cards_to]
  | cons x rest ih =>
    rw [Pool.transfer_cards_to]
    cases hstep : A.transfer_card_to B x with
    | error e => simp
    | ok r =>
      have hr := transfer_card_to_lookup A B x r.1 r.2 (by rw [hstep])
      have := ih r.1 r.2
      rw [hr.1, hr.2] at this
      simpa using this

/-- C9: `lookup` is a construction-time snapshot.  The constructor is the
only writer, and every later mutation — `transfer_all_to`,
`transfer_cards_to` and `transfer_card_to` (on both pools, also on the
partial state kept when a multi-card transfer raises), and direct
appends/removals on `cards` — leaves the `lookup` field of both pools
untouched. -/
theorem lookup_snapshot :
    (∀ (name : String) (cards : List Card) (abilities : List (Int × Ability)),
      (Pool.make name cards abilities).lookup = buildLookup abilities cards) ∧
    (∀ A B : Pool, (A.transfer_all_to B).1.lookup = A.lookup ∧
      (A.transfer_all_to B).2.lookup = B.lookup) ∧
    (∀ (A B : Pool) (x : CardOrKey) (A' B' : Pool),
      A.transfer_card_to B x = .ok (A', B') →
      A'.lookup = A.lookup ∧ B'.lookup = B.lookup) ∧
    (∀ (xs : List CardOrKey) (A B : Pool),
      (A.transfer_cards_to B xs).1.1.lookup = A.lookup ∧
      (A.transfer_cards_to B xs).1.2.lookup = B.lookup) ∧
    (∀ (p : Pool) (c : Card), (p.append_card c).lookup = p.lookup) ∧
    (∀ (p : Pool) (c : Card), (p.remove_card c).lookup = p.lookup) := by
  refine ⟨fun _ _ _ => rfl, fun A B => ⟨rfl, ?_⟩, ?_, transfer_cards_to_lookup,
    fun _ _ => rfl, fun _ _ => rfl⟩
  · rw [Pool.transfer_all_to]
    simp [foldl_append_cards]
  · intro A B x A' B' h
    exact transfer_card_to_lookup A B x A' B' h

/-- Witness for C9: a concrete successful `transfer_card_to` out of the
example pool preserves both lookup snapshots. -/
theorem lookup_snapshot_witness :
    (poolExample.transfer_card_to poolEmpty (.card cardBolt)
      = .ok ({ poolExample with cards := [cardStrike] },
             { poolEmpty with cards := [cardBolt] })) ∧
    ({ poolExample with cards := [cardStrike] } : Pool).lookup = poolExample.lookup ∧
    ({ poolEmpty with cards := [cardBolt] } : Pool).lookup = poolEmpty.lookup := by
  refine ⟨by rfl, ?_⟩
  exact lookup_snapshot.2.2.1 poolExample poolEmpty (.card cardBolt) _ _ (by rfl)

/-! ## Library generation -/

theorem foldl_append_lib (cs : List Card) (s : Int) (l : Library) :
    cs.foldl (fun l c => { l with cards := l.cards ++ [GameCard.make c s (-1)] }) l
      = { l with cards := l.cards ++ cs.map (fun c => GameCard.make c s (-1)) } := by
  induction cs generalizing l with
  | nil => simp
  | cons c rest ih => simp [List.foldl_cons, ih, List.append_assoc]

/-- C8: `generate_library(s)` yields a library with the deck's name and deck
id, holding one freshly built in-game record per deck card in order — same
catalog data, owner seat `s`, instance id `-1`, empty instance-id history.
The deck is read, never written: the operation builds a disjoint copy. -/
theorem generate_library_spec (d : Deck) (s : Int) :
    (d.generate_library s).pool_name = d.pool_name ∧
    (d.generate_library s).deck_id = d.deck_id ∧
    (d.generate_library s).owner_seat_id = s ∧
    (d.generate_library s).cards.length = d.cards.length ∧
    (∀ i : Nat, i < d.cards.length →
      ∃ g, (d.generate_library s).cards.get? i = some g ∧
        g.owner_seat_id = s ∧ g.game_id = -1 ∧ g.previous_iids = [] ∧
        ∃ c, d.cards.get? i = some c ∧
          g.name = c.name ∧ g.pretty_name = c.pretty_name ∧ g.cost = c.cost ∧
          g.color_identity = c.color_identity ∧ g.card_type = c.card_type ∧
          g.sub_types = c.sub_types ∧ g.set = c.set ∧
          g.set_number = c.set_number ∧ g.mtga_id = c.mtga_id) := by
  have hlib : d.generate_library s =
      { pool_name := d.pool_name, deck_id := d.deck_id, owner_seat_id := s,
        zone_id := -1,
        cards := d.cards.map (fun c => GameCard.make c s (-1)) } := by
    rw [Deck.generate_library, foldl_append_lib]
    rfl
  rw [hlib]
  refine ⟨rfl, rfl, rfl, by simp, ?_⟩
  intro i hi
  have hc : d.cards.get? i = some (d.cards.get ⟨i, hi⟩) := List.get?_eq_get hi
  refine ⟨GameCard.make (d.cards.get ⟨i, hi⟩) s (-1), ?_, rfl, rfl, rfl,
    d.cards.get ⟨i, hi⟩, hc, rfl, rfl, rfl, rfl, rfl, rfl, rfl, rfl, rfl⟩
  simp only [List.get?_map, hc]
  rfl

/-- Witness for C8: the middle card of the three-card deck, generated for
seat 2. -/
theorem generate_library_spec_witness :
    1 < deckThree.cards.length ∧
    (∃ g, (deckThree.generate_library 2).cards.get? 1 = some g ∧
      g.owner_seat_id = 2 ∧ g.game_id = -1 ∧ g.previous_iids = [] ∧
      ∃ c, deckThree.cards.get? 1 = some c ∧
        g.name = c.name ∧ g.pretty_name = c.pretty_name ∧ g.cost = c.cost ∧
        g.color_identity = c.color_identity ∧ g.card_type = c.card_type ∧
        g.sub_types = c.sub_types ∧ g.set = c.set ∧
        g.set_number = c.set_number ∧ g.mtga_id = c.mtga_id) :=
  ⟨by decide, (generate_library_spec deckThree 2).2.2.2.2 1 (by decide)⟩

/-! ## find_one -/

/-- C6: `find_one` refines `search` by distinctness: it fails with the
not-found error exactly when `search` returns nothing, fails with the
ambiguity error exactly when `search` returns two distinct matches, and
returns `e` exactly when `e` is the unique distinct match. -/
theorem find_one_spec (p : Pool) (k : Key) :
    (p.find_one k = .error .notFound ↔ p.search k = []) ∧
    (p.find_one k = .error .ambiguous ↔
      ∃ e₁ e₂, e₁ ∈ p.search k ∧ e₂ ∈ p.search k ∧ e₁ ≠ e₂) ∧
    (∀ e, p.find_one k = .ok e ↔
      (e ∈ p.search k ∧ ∀ x ∈ p.search k, x = e)) := by
  have hfo : p.find_one k = (match (p.search k).dedup with
      | [] => (.error .notFound : Except FindErr Entry)
      | [e] => .ok e
      | _ => .error .ambiguous) := rfl
  cases h : (p.search k).dedup with
  | nil =>
    have hl : p.search k = [] := (List.dedup_eq_nil _).mp h
    rw [hfo, h]
    refine ⟨by simp [hl], ?_, ?_⟩
    · constructor
      · intro hx
        exact absurd hx (by simp)
      · rintro ⟨e₁, e₂, h1, h2, hne⟩
        rw [hl] at h1
        simp at h1
    · intro e
      constructor
      · intro hx
        exact absurd hx (by simp)
      · rintro ⟨he, _⟩
        rw [hl] at he
        simp at he
  | cons a t =>
    have hane : p.search k ≠ [] := by
      intro hl
      rw [hl] at h
      simp at h
    cases t with
    | nil =>
      have hmem : a ∈ p.search k := by
        have : a ∈ (p.search k).dedup := by
          rw [h]
          exact List.mem_singleton_self a
        exact List.mem_dedup.mp this
      have hall : ∀ x ∈ p.search k, x = a := by
        intro x hx
        have hx' : x ∈ (p.search k).dedup := List.mem_dedup.mpr hx
        rw [h] at hx'
        simpa using hx'
      rw [hfo, h]
      refine ⟨⟨fun hx => absurd hx (by simp), fun hx => absurd hx hane⟩, ?_, ?_⟩
      · constructor
        · intro hx
          exact absurd hx (by simp)
        · rintro ⟨e₁, e₂, h1, h2, hne⟩
          exact absurd ((hall e₁ h1).trans (hall e₂ h2).symm) hne
      · intro e
        constructor
        · intro hx
          have : a = e := by simpa using hx
          subst this
          exact ⟨hmem, hall⟩
        · rintro ⟨he, hu⟩
          have : a = e := hu a hmem
          subst this
          rfl
    | cons b t' =>
      have hnd : (p.search k).dedup.Nodup := List.nodup_dedup _
      rw [h] at hnd
      have hab : a ≠ b := by
        intro hcontra
        subst hcontra
        simp at hnd
      have hma : a ∈ p.search k := by
        refine List.mem_dedup.mp ?_
        rw [h]
        simp
      have hmb : b ∈ p.search k := by
        refine List.mem_dedup.mp ?_
        rw [h]
        simp
      rw [hfo, h]
      refine ⟨⟨fun hx => absurd hx (by simp), fun hx => absurd hx hane⟩, ?_, ?_⟩
      · exact ⟨fun _ => ⟨a, b, hma, hmb, hab⟩, fun _ => rfl⟩
      · intro e
        constructor
        · intro hx
          exact absurd hx (by simp)
        · rintro ⟨he, hu⟩
          exact absurd (((hu a hma).trans (hu b hmb).symm)) hab

/-- Witness for C6: on the spec's example pool, "lightning" matches both
cards, so `find_one` fails with the ambiguity error. -/
theorem find_one_spec_witness :
    poolExample.find_one (Key.str "lightning") = .error .ambiguous :=
  (find_one_spec poolExample (Key.str "lightning")).2.1.mpr
    ⟨Entry.card cardBolt, Entry.card cardStrike, by decide, by decide, by decide⟩

/-! ## Partial multi-card transfer -/

/-- C7: `transfer_cards_to` is not transactional.  When the multi-card
transfer surfaces an error, there is a position `i` such that the first `i`
arguments were transferred successfully, the final pools are exactly the
pools after that successful prefix (earlier moves stay committed — no
rollback), and the `i`-th argument is the sub-step that raised. -/
theorem transfer_cards_to_partial (xs : List CardOrKey) (A B : Pool)
    (e : FindErr) (h : (A.transfer_cards_to B xs).2 = some e) :
    ∃ i x, xs.get? i = some x ∧
      (A.transfer_cards_to B (xs.take i)).2 = none ∧
      (A.transfer_cards_to B xs).1 = (A.transfer_cards_to B (xs.take i)).1 ∧
      (A.transfer_cards_to B (xs.take i)).1.1.transfer_card_to
        (A.transfer_cards_to B (xs.take i)).1.2 x = .error e := by
  induction xs generalizing A B with
  | nil => simp [Pool.transfer_cards_to] at h
  | cons x rest ih =>
    cases hstep : A.transfer_card_to B x with
    | error e' =>
      rw [Pool.transfer_cards_to, hstep] at h
      simp only [Option.some.injEq] at h
      subst h
      refine ⟨0, x, rfl, rfl, ?_, ?_⟩
      · rw [Pool.transfer_cards_to, hstep]
        rfl
      · exact hstep
    | ok r =>
      have hred : A.transfer_cards_to B (x :: rest)
          = r.1.transfer_cards_to r.2 rest := by
        rw [Pool.transfer_cards_to, hstep]
      rw [hred] at h
      obtain ⟨i, x', hget, hpre, hstate, herr⟩ := ih r.1 r.2 h
      have hredtake : A.transfer_cards_to B ((x :: rest).take (i + 1))
          = r.1.transfer_cards_to r.2 (rest.take i) := by
        rw [List.take_succ_cons, Pool.transfer_cards_to, hstep]
      refine ⟨i + 1, x', by simpa using hget, ?_, ?_, ?_⟩
      · rw [hredtake]
        exact hpre
      · rw [hred, hredtake]
        exact hstate
      · rw [hredtake]
        exact herr

/-- Witness for C7: transferring `[cardBolt, "fireball"]` out of the example
pool moves the bolt, then fails at position 1 with the not-found error. -/
theorem transfer_cards_to_partial_witness :
    (poolExample.transfer_cards_to poolEmpty
      [.card cardBolt, .key (Key.str "fireball")]).2 = some .notFound ∧
    (∃ i x, ([CardOrKey.card cardBolt, .key (Key.str "fireball")]).get? i = some x ∧
      (poolExample.transfer_cards_to poolEmpty
        ([CardOrKey.card cardBolt, .key (Key.str "fireball")].take i)).2 = none ∧
      (poolExample.transfer_cards_to poolEmpty
        [CardOrKey.card cardBolt, .key (Key.str "fireball")]).1
        = (poolExample.transfer_cards_to poolEmpty
            ([CardOrKey.card cardBolt, .key (Key.str "fireball")].take i)).1 ∧
      (poolExample.transfer_cards_to poolEmpty
        ([CardOrKey.card cardBolt, .key (Key.str "fireball")].take i)).1.1.transfer_card_to
        (poolExample.transfer_cards_to poolEmpty
          ([CardOrKey.card cardBolt, .key (Key.str "fireball")].take i)).1.2 x
        = .error .notFound) :=
  ⟨by decide,
   transfer_cards_to_partial [.card cardBolt, .key (Key.str "fireball")]
     poolExample poolEmpty .notFound (by decide)⟩

/-! ## Integer-key search -/

theorem searchScan_numeric (n : Int) (kc : String) (cards : List Card)
    (c : Card) (hc : firstNumericMatch cards n = some c) (acc : List Entry) :
    searchScan (some n) kc false acc cards = [Entry.card c] := by
  induction cards generalizing acc with
  | nil => simp [firstNumericMatch] at hc
  | cons a rest ih =>
    rw [firstNumericMatch, List.find?_cons] at hc
    rw [searchScan]
    split
    · rename_i hb
      rw [hb] at hc
      simp only [Option.some.injEq] at hc
      subst hc
      rfl
    · rename_i hb
      have hb' : (n == a.mtga_id || n == a.set_number) = false := by
        revert hb
        cases (n == a.mtga_id || n == a.set_number) <;> simp
      rw [hb'] at hc
      have hc' : firstNumericMatch rest n = some c := by
        rw [firstNumericMatch]
        exact hc
      simp only [Bool.and_false, Bool.false_eq_true, if_false]
      split
      · exact ih hc' _
      · exact ih hc' _

theorem dictGet_of_hasKey (d : List (Int × Entry)) (k : Int)
    (h : dictHasKey d k = true) : ∃ e, dictGet d k = some e := by
  rw [dictHasKey, List.any_eq_true] at h
  obtain ⟨p, hp, hpk⟩ := h
  have hfind : (d.find? (fun p => p.1 == k)).isSome := by
    rw [List.find?_isSome]
    exact ⟨p, hp, hpk⟩
  obtain ⟨q, hq⟩ := Option.isSome_iff_exists.mp hfind
  exact ⟨q.2, by rw [dictGet, hq]; rfl⟩

/-- C2 (amended): for an integer key `n` that numerically matches a card,
`search` returns a single result provided `n` is at least 10000 or is a
`lookup` key: the single `lookup` entry for `n` when `n` is a nonzero
`lookup` key (which need not be the first numerically matching card of
`cards`), and otherwise the first card whose catalog id or in-set number
equals `n`.  (When `n` is below 10000 and not a `lookup` key, the numeric
comparison is disabled and only name matching runs — the subject of the
counterexample.) -/
theorem search_int_key (p : Pool) (k : Key) (n : Int) (c : Card)
    (hn : k.toInt? = some n)
    (hel : 10000 ≤ n ∨ dictHasKey p.lookup n = true)
    (hc : firstNumericMatch p.cards n = some c) :
    (¬n = 0 ∧ dictHasKey p.lookup n = true →
      ∃ e, dictGet p.lookup n = some e ∧ p.search k = [e]) ∧
    ((n = 0 ∨ dictHasKey p.lookup n = false) → p.search k = [Entry.card c]) := by
  have hki : searchKeyInt p k = some n := by
    rw [searchKeyInt, hn]
    rcases hel with h10 | hlk
    · have : decide (n < 10000) = false := by
        simp only [decide_eq_false_iff_not]
        omega
      simp [this]
    · simp [hlk]
  constructor
  · rintro ⟨h0, hlk⟩
    obtain ⟨e, he⟩ := dictGet_of_hasKey p.lookup n hlk
    refine ⟨e, he, ?_⟩
    rw [Pool.search, hki]
    have hcond : (n != 0 && dictHasKey p.lookup n) = true := by
      simp [bne_iff_ne, h0, hlk]
    simp only [hcond, if_true, he]
  · intro h0
    rw [Pool.search, hki]
    have hcond : (n != 0 && dictHasKey p.lookup n) = false := by
      rcases h0 with h | h
      · simp [h]
      · simp [h]
    simp only [hcond, Bool.false_eq_true, if_false]
    exact searchScan_numeric n _ p.cards c hc []

/-- Witness for C2 (amended): key 1001 on the example pool hits the lookup
fast path and returns the single lookup entry. -/
theorem search_int_key_witness :
    (Key.int 1001).toInt? = some 1001 ∧
    dictHasKey poolExample.lookup 1001 = true ∧
    firstNumericMatch poolExample.cards 1001 = some cardBolt ∧
    (∃ e, dictGet poolExample.lookup 1001 = some e ∧
      poolExample.search (Key.int 1001) = [e]) :=
  ⟨rfl, by decide, by decide,
   (search_int_key poolExample (Key.int 1001) 1001 cardBolt rfl
      (Or.inr (by decide)) (by decide)).1 ⟨by decide, by decide⟩⟩

/-- C2 counterexample: the pool holds a card whose in-set number is 7, yet
`search(7)` returns nothing — 7 is below 10000 and not a lookup key, so the
parsed integer is discarded and the numeric comparison never runs. -/
theorem search_int_key_counterexample :
    cardLowSetNumber ∈ poolLowSetNumber.cards ∧
    (7 : Int) = cardLowSetNumber.set_number ∧
    poolLowSetNumber.search (Key.int 7) = [] ∧
    poolLowSetNumber.search (Key.int 7) ≠ [Entry.card cardLowSetNumber] := by
  decide

/-! ## Zone identity matching -/

theorem matchLoop_characterization (iid cid : Int) (cards : List GameCard) :
    matchLoop iid cid cards =
      match firstConflictIdx iid cid cards with
      | none => (cards.map (stepCard iid cid), none)
      | some j => ((cards.take j).map (stepCard iid cid) ++ cards.drop j,
                   some .identityConflict) := by
  induction cards with
  | nil => rfl
  | cons c rest ih =>
    by_cases h1 : (c.game_id == iid || c.previous_iids.contains iid) = true
    · by_cases h2 : (c.mtga_id != -1 && c.mtga_id != cid) = true
      · have hcf : isConflict iid cid c = true := by
          rw [isConflict, instMatches, h1, h2]
          rfl
        rw [matchLoop, if_pos h1, if_pos h2, firstConflictIdx, if_pos hcf]
        simp
      · have h2' : (c.mtga_id != -1 && c.mtga_id != cid) = false := by
          revert h2
          cases (c.mtga_id != -1 && c.mtga_id != cid) <;> simp
        have hcf : isConflict iid cid c = false := by
          rw [isConflict, h2', Bool.and_false]
        have hstep : stepCard iid cid c = c.transform_to cid := by
          rw [stepCard, if_pos]
          rwa [instMatches]
        rw [matchLoop, if_pos h1, if_neg h2, firstConflictIdx,
          if_neg (by rw [hcf]; exact Bool.false_ne_true)]
        cases hrest : firstConflictIdx iid cid rest with
        | none =>
          rw [hrest] at ih
          simp [ih, hstep]
        | some j =>
          rw [hrest] at ih
          simp [ih, hstep]
    · have h1' : (c.game_id == iid || c.previous_iids.contains iid) = false := by
        revert h1
        cases (c.game_id == iid || c.previous_iids.contains iid) <;> simp
      have hcf : isConflict iid cid c = false := by
        rw [isConflict, instMatches, h1', Bool.false_and]
      have hnc : ¬ (isConflict iid cid c = true) := by
        rw [hcf]
        exact Bool.false_ne_true
      rw [matchLoop, if_neg h1, firstConflictIdx, if_neg hnc]
      by_cases h3 : (c.mtga_id == cid) = true
      · have hstep : stepCard iid cid c
            = (if c.game_id == -1 then { c with game_id := iid } else c) := by
          rw [stepCard, if_neg (by rw [instMatches, h1']; exact Bool.false_ne_true), h3,
            Bool.true_and]
        rw [if_pos h3]
        cases hrest : firstConflictIdx iid cid rest with
        | none =>
          rw [hrest] at ih
          simp [ih, hstep]
        | some j =>
          rw [hrest] at ih
          simp [ih, hstep]
      · have hstep : stepCard iid cid c = c := by
          rw [stepCard, if_neg (by rw [instMatches, h1']; exact Bool.false_ne_true)]
          have h3' : (c.mtga_id == cid) = false := by
            revert h3
            cases (c.mtga_id == cid) <;> simp
          rw [h3', Bool.false_and]
          rfl
        rw [if_neg h3]
        cases hrest : firstConflictIdx iid cid rest with
        | none =>
          rw [hrest] at ih
          simp [ih, hstep]
        | some j =>
          rw [hrest] at ih
          simp [ih, hstep]

/-- C1 (amended): `match_game_id_to_card` does not act on just the first
matching card.  It processes every card in order up to the first
identity-conflicting card (if any): every instance-id-matched card is
transformed to `card_id`, every card matched by the catalog-id fallback with
an unset instance id receives `instance_id`, all other cards are unchanged;
when a conflicting card exists the loop aborts there, leaving that card and
all later cards untouched. -/
theorem match_game_id_to_card_spec (z : Zone) (iid cid : Int) :
    z.match_game_id_to_card iid cid =
      match firstConflictIdx iid cid z.cards with
      | none => ({ z with cards := z.cards.map (stepCard iid cid) }, none)
      | some j => ({ z with cards :=
                      (z.cards.take j).map (stepCard iid cid) ++ z.cards.drop j },
                   some .identityConflict) := by
  rw [Zone.match_game_id_to_card, matchLoop_characterization]
  cases firstConflictIdx iid cid z.cards <;> rfl

/-- C1 counterexample: a zone holding two cards that both carry instance id
55; `match_game_id_to_card(55, 1001)` transforms both of them — the claim
says only the first matching card may be modified. -/
theorem match_game_id_to_card_counterexample :
    (zoneTwoIid55.match_game_id_to_card 55 1001).1.cards.get? 0
      = some (gameCardIid55.transform_to 1001) ∧
    (zoneTwoIid55.match_game_id_to_card 55 1001).1.cards.get? 1
      = some (gameCardIid55.transform_to 1001) ∧
    gameCardIid55.transform_to 1001 ≠ gameCardIid55 := by
  decide

theorem firstConflictIdx_none_iff (iid cid : Int) (l : List GameCard) :
    firstConflictIdx iid cid l = none ↔
      ∀ c ∈ l, isConflict iid cid c = false := by
  induction l with
  | nil => simp [firstConflictIdx]
  | cons c rest ih =>
    rw [firstConflictIdx]
    by_cases hc : isConflict iid cid c = true
    · simp [hc]
    · have hc' : isConflict iid cid c = false := by
        revert hc
        cases (isConflict iid cid c) <;> simp
      simp [hc', Option.map_eq_none', ih]

theorem firstConflictIdx_le (iid cid : Int) (l : List GameCard) (j : Nat)
    (hj : firstConflictIdx iid cid l = some j) :
    ∀ (i : Nat) (c : GameCard), l.get? i = some c →
      isConflict iid cid c = true → j ≤ i := by
  induction l generalizing j with
  | nil => simp [firstConflictIdx] at hj
  | cons a rest ih =>
    rw [firstConflictIdx] at hj
    by_cases ha : isConflict iid cid a = true
    · rw [if_pos ha] at hj
      simp only [Option.some.injEq] at hj
      subst hj
      intro i c _ _
      exact Nat.zero_le i
    · rw [if_neg ha] at hj
      cases hr : firstConflictIdx iid cid rest with
      | none =>
        rw [hr] at hj
        simp at hj
      | some j' =>
        rw [hr] at hj
        simp only [Option.map_some', Option.some.injEq] at hj
        intro i c hget hc
        cases i with
        | zero =>
          simp only [List.get?_cons_zero, Option.some.injEq] at hget
          subst hget
          exact absurd hc ha
        | succ i' =>
          have := ih j' hr i' c (by simpa using hget) hc
          omega

theorem firstConflictIdx_conflict_at (iid cid : Int) (l : List GameCard)
    (j : Nat) (hj : firstConflictIdx iid cid l = some j) :
    ∃ c, l.get? j = some c ∧ isConflict iid cid c = true := by
  induction l generalizing j with
  | nil => simp [firstConflictIdx] at hj
  | cons a rest ih =>
    rw [firstConflictIdx] at hj
    by_cases ha : isConflict iid cid a = true
    · rw [if_pos ha] at hj
      simp only [Option.some.injEq] at hj
      subst hj
      exact ⟨a, rfl, ha⟩
    · rw [if_neg ha] at hj
      cases hr : firstConflictIdx iid cid rest with
      | none =>
        rw [hr] at hj
        simp at hj
      | some j' =>
        rw [hr] at hj
        simp only [Option.map_some', Option.some.injEq] at hj
        subst hj
        obtain ⟨c, hget, hc⟩ := ih j' hr
        exact ⟨c, by simpa using hget, hc⟩

/-- C4: when the zone holds a card selected by instance id whose catalog id
is already resolved to a third value, `match_game_id_to_card` fails with the
identity conflict, and every such conflicting card comes out of the call
unchanged (the raise fires before the transform). -/
theorem match_game_id_to_card_conflict (z : Zone) (iid cid : Int)
    (h : ∃ c ∈ z.cards, isConflict iid cid c = true) :
    (z.match_game_id_to_card iid cid).2 = some .identityConflict ∧
    ∀ (i : Nat) (c : GameCard), z.cards.get? i = some c →
      isConflict iid cid c = true →
      (z.match_game_id_to_card iid cid).1.cards.get? i = some c := by
  cases hj : firstConflictIdx iid cid z.cards with
  | none =>
    obtain ⟨c, hcmem, hcconf⟩ := h
    have := (firstConflictIdx_none_iff iid cid z.cards).mp hj c hcmem
    rw [this] at hcconf
    exact absurd hcconf (by simp)
  | some j =>
    have hchar := matchLoop_characterization iid cid z.cards
    rw [hj] at hchar
    have hres : z.match_game_id_to_card iid cid
        = ({ z with cards :=
              (z.cards.take j).map (stepCard iid cid) ++ z.cards.drop j },
           some .identityConflict) := by
      rw [Zone.match_game_id_to_card, hchar]
    rw [hres]
    refine ⟨rfl, ?_⟩
    intro i c hget hconf
    have hji : j ≤ i := firstConflictIdx_le iid cid z.cards j hj i c hget hconf
    have hjlen : j < z.cards.length := by
      obtain ⟨c', hc', _⟩ := firstConflictIdx_conflict_at iid cid z.cards j hj
      exact (List.get?_eq_some.mp hc').1
    have hlen : ((z.cards.take j).map (stepCard iid cid)).length = j := by
      simp [List.length_take]
      omega
    show ((z.cards.take j).map (stepCard iid cid) ++ z.cards.drop j).get? i
      = some c
    rw [List.get?_append_right (by rw [hlen]; exact hji), hlen, List.get?_drop,
      Nat.add_sub_cancel' hji]
    exact hget

/-- Witness for C4: the zone holding a card resolved to 1001 under instance
id 55 rejects `match_game_id_to_card(55, 1002)` and leaves the card as it
was. -/
theorem match_game_id_to_card_conflict_witness :
    (zoneResolved.match_game_id_to_card 55 1002).2 = some .identityConflict ∧
    (zoneResolved.match_game_id_to_card 55 1002).1.cards.get? 0
      = some gameCardResolved :=
  have h := match_game_id_to_card_conflict zoneResolved 55 1002
    ⟨gameCardResolved, by decide, by decide⟩
  ⟨h.1, h.2 0 gameCardResolved (by decide) (by decide)⟩

/-! ## Collapsed serialization -/

theorem ite_beq_eq_one {i j : Int} (h : (i == j) = true) :
    (if i == j then (1 : Nat) else 0) = 1 := by
  rw [h]
  simp

theorem ite_beq_eq_zero {i j : Int} (h : (i == j) = false) :
    (if i == j then (1 : Nat) else 0) = 0 := by
  rw [h]
  simp

theorem bumpGroup_ids (acc : List CountedGroup) (c : Card) :
    (bumpGroup acc c).map (fun g => g.mtga_id)
      = if (acc.map (fun g => g.mtga_id)).contains c.mtga_id
        then acc.map (fun g => g.mtga_id)
        else acc.map (fun g => g.mtga_id) ++ [c.mtga_id] := by
  have hb : (acc.any (fun g => g.mtga_id == c.mtga_id))
      = (acc.map (fun g => g.mtga_id)).contains c.mtga_id := by
    rw [Bool.eq_iff_iff, List.any_eq_true]
    constructor
    · rintro ⟨g, hg, hgi⟩
      exact List.elem_iff.mpr (List.mem_map.mpr ⟨g, hg, eq_of_beq hgi⟩)
    · intro h
      obtain ⟨g, hg, hgi⟩ := List.mem_map.mp (List.elem_iff.mp h)
      exact ⟨g, hg, by rw [beq_iff_eq]; exact hgi⟩
  rw [bumpGroup, hb]
  by_cases h : (acc.map (fun g => g.mtga_id)).contains c.mtga_id = true
  · rw [if_pos h, if_pos h, List.map_map]
    apply List.map_congr_left
    intro g _
    by_cases hgi : (g.mtga_id == c.mtga_id) = true
    · simp [Function.comp, hgi]
    · simp [Function.comp, hgi]
  · rw [if_neg h, if_neg h]
    simp

theorem buildCardDict_ids_aux (cards : List Card) :
    ∀ acc : List CountedGroup,
      (cards.foldl bumpGroup acc).map (fun g => g.mtga_id)
        = cards.foldl
            (fun a c => if a.contains c.mtga_id then a else a ++ [c.mtga_id])
            (acc.map (fun g => g.mtga_id)) := by
  induction cards with
  | nil => intro acc; rfl
  | cons c rest ih =>
    intro acc
    rw [List.foldl_cons, List.foldl_cons, ih (bumpGroup acc c), bumpGroup_ids]

/-- The collapsing dict enumerates catalog ids in first-seen order. -/
theorem buildCardDict_ids (cards : List Card) :
    (buildCardDict cards).map (fun g => g.mtga_id) = firstSeenIds cards := by
  rw [buildCardDict, firstSeenIds, buildCardDict_ids_aux]
  rfl

theorem countById_cons (a : Card) (rest : List Card) (i : Int) :
    countById (a :: rest) i
      = (if a.mtga_id == i then 1 else 0) + countById rest i := by
  rw [countById, countById, List.filter_cons]
  by_cases h : (a.mtga_id == i) = true
  · rw [if_pos h, if_pos h, List.length_cons]
    omega
  · rw [if_neg h, if_neg h]
    omega

theorem build_count_aux (cards : List Card) :
    ∀ (acc : List CountedGroup) (g : CountedGroup),
      g ∈ cards.foldl bumpGroup acc →
      (∃ g₀ ∈ acc, g₀.mtga_id = g.mtga_id ∧
        g.count = g₀.count + countById cards g.mtga_id) ∨
      (g.count = countById cards g.mtga_id ∧
        ¬ g.mtga_id ∈ acc.map (fun x => x.mtga_id)) := by
  induction cards with
  | nil =>
    intro acc g hg
    rw [List.foldl_nil] at hg
    refine Or.inl ⟨g, hg, rfl, ?_⟩
    rw [countById]
    simp
  | cons c rest ih =>
    intro acc g hg
    rw [List.foldl_cons] at hg
    rcases ih (bumpGroup acc c) g hg with ⟨g₀, hg₀, hid, hcnt⟩ | ⟨hcnt, hnotin⟩
    · -- `g` descends from an entry of the bumped accumulator
      rw [bumpGroup] at hg₀
      by_cases hany : (acc.any (fun x => x.mtga_id == c.mtga_id)) = true
      · rw [if_pos hany] at hg₀
        obtain ⟨g₁, hg₁, hup⟩ := List.mem_map.mp hg₀
        by_cases hkey : (g₁.mtga_id == c.mtga_id) = true
        · rw [if_pos hkey] at hup
          have hid1 : g₁.mtga_id = g.mtga_id := by
            rw [← hid, ← hup]
          have hcc : g₀.count = g₁.count + 1 := by
            rw [← hup]
          refine Or.inl ⟨g₁, hg₁, hid1, ?_⟩
          rw [countById_cons]
          have hceq : (c.mtga_id == g.mtga_id) = true := by
            rw [beq_iff_eq, ← hid1]
            exact (eq_of_beq hkey).symm
          rw [ite_beq_eq_one hceq]
          omega
        · rw [if_neg hkey] at hup
          subst hup
          have hkey' : g₁.mtga_id ≠ c.mtga_id := by
            simpa using hkey
          refine Or.inl ⟨g₁, hg₁, hid, ?_⟩
          rw [countById_cons]
          have hne' : (c.mtga_id == g.mtga_id) = false := by
            rw [beq_eq_false_iff_ne]
            intro hcontra
            exact hkey' (by rw [hid, ← hcontra])
          rw [ite_beq_eq_zero hne']
          omega
      · rw [if_neg hany] at hg₀
        rcases List.mem_append.mp hg₀ with hin | hnew
        · have hne : g₀.mtga_id ≠ c.mtga_id := by
            intro hcontra
            apply hany
            rw [List.any_eq_true]
            exact ⟨g₀, hin, by rw [beq_iff_eq]; exact hcontra⟩
          refine Or.inl ⟨g₀, hin, hid, ?_⟩
          rw [countById_cons]
          have hne' : (c.mtga_id == g.mtga_id) = false := by
            rw [beq_eq_false_iff_ne]
            intro hcontra
            exact hne (by rw [hid, ← hcontra])
          rw [ite_beq_eq_zero hne']
          omega
        · have hg₀' : g₀ = { mtga_id := c.mtga_id, record := c, count := 1 } := by
            simpa using hnew
          have hidc : g.mtga_id = c.mtga_id := by
            rw [← hid, hg₀']
          have hc1 : g₀.count = 1 := by
            rw [hg₀']
          have hnotacc : ¬ g.mtga_id ∈ acc.map (fun x => x.mtga_id) := by
            intro hcontra
            apply hany
            obtain ⟨g₂, hg₂, hg₂i⟩ := List.mem_map.mp hcontra
            rw [List.any_eq_true]
            exact ⟨g₂, hg₂, by rw [beq_iff_eq, hg₂i, hidc]⟩
          refine Or.inr ⟨?_, hnotacc⟩
          rw [countById_cons]
          have hceq : (c.mtga_id == g.mtga_id) = true := by
            rw [beq_iff_eq, hidc]
          rw [ite_beq_eq_one hceq]
          omega
    · -- `g` was created while folding over `rest`
      have hkeysup : ∀ i : Int, i ∈ acc.map (fun x => x.mtga_id) ∨ i = c.mtga_id →
          i ∈ (bumpGroup acc c).map (fun x => x.mtga_id) := by
        intro i hi
        rw [bumpGroup_ids]
        by_cases hcont : ((acc.map (fun g => g.mtga_id)).contains c.mtga_id) = true
        · rw [if_pos hcont]
          rcases hi with h | h
          · exact h
          · rw [h]
            exact List.elem_iff.mp hcont
        · rw [if_neg hcont]
          rcases hi with h | h
          · exact List.mem_append.mpr (Or.inl h)
          · exact List.mem_append.mpr
              (Or.inr (by rw [h]; exact List.mem_singleton_self _))
      have hnc : g.mtga_id ≠ c.mtga_id := by
        intro hcontra
        exact hnotin (hkeysup g.mtga_id (Or.inr hcontra))
      have hnacc : ¬ g.mtga_id ∈ acc.map (fun x => x.mtga_id) := by
        intro hcontra
        exact hnotin (hkeysup g.mtga_id (Or.inl hcontra))
      refine Or.inr ⟨?_, hnacc⟩
      rw [countById_cons]
      have hne' : (c.mtga_id == g.mtga_id) = false := by
        rw [beq_eq_false_iff_ne]
        intro hcontra
        exact hnc hcontra.symm
      rw [ite_beq_eq_zero hne']
      omega

/-- Each group of the collapsing dict counts the copies of its catalog id. -/
theorem buildCardDict_count (cards : List Card) (g : CountedGroup)
    (hg : g ∈ buildCardDict cards) : g.count = countById cards g.mtga_id := by
  rcases build_count_aux cards [] g hg with ⟨g₀, hg₀, _⟩ | ⟨h, _⟩
  · simp at hg₀
  · exact h

theorem insertByCount_perm (x : CountedGroup) (l : List CountedGroup) :
    (insertByCount x l).Perm (x :: l) := by
  induction l with
  | nil => exact List.Perm.refl _
  | cons y ys ih =>
    rw [insertByCount]
    by_cases h : x.count ≤ y.count
    · rw [if_pos h]
    · rw [if_neg h]
      exact (ih.cons y).trans (List.Perm.swap x y ys)

theorem sortByCountAsc_perm (l : List CountedGroup) :
    (sortByCountAsc l).Perm l := by
  induction l with
  | nil => exact List.Perm.refl _
  | cons x xs ih =>
    rw [sortByCountAsc]
    exact (insertByCount_perm x (sortByCountAsc xs)).trans (ih.cons x)

theorem insertByCount_sorted (x : CountedGroup) (l : List CountedGroup)
    (h : l.Pairwise (fun a b => a.count ≤ b.count)) :
    (insertByCount x l).Pairwise (fun a b => a.count ≤ b.count) := by
  induction l with
  | nil => simp [insertByCount]
  | cons y ys ih =>
    rw [List.pairwise_cons] at h
    rw [insertByCount]
    by_cases hxy : x.count ≤ y.count
    · rw [if_pos hxy]
      rw [List.pairwise_cons]
      refine ⟨?_, List.pairwise_cons.mpr h⟩
      intro z hz
      rcases List.mem_cons.mp hz with hzy | hzys
      · rw [hzy]
        exact hxy
      · exact le_trans hxy (h.1 z hzys)
    · rw [if_neg hxy]
      rw [List.pairwise_cons]
      refine ⟨?_, ih h.2⟩
      intro z hz
      have hz' : z ∈ x :: ys := (insertByCount_perm x ys).mem_iff.mp hz
      rcases List.mem_cons.mp hz' with hzx | hzys
      · rw [hzx]
        omega
      · exact h.1 z hzys

theorem sortByCountAsc_sorted (l : List CountedGroup) :
    (sortByCountAsc l).Pairwise (fun a b => a.count ≤ b.count) := by
  induction l with
  | nil => simp [sortByCountAsc]
  | cons x xs ih =>
    rw [sortByCountAsc]
    exact insertByCount_sorted x (sortByCountAsc xs) ih

theorem insertByCount_filter (x : CountedGroup) (l : List CountedGroup)
    (n : Nat) :
    (insertByCount x l).filter (fun g => g.count == n)
      = if x.count == n then x :: l.filter (fun g => g.count == n)
        else l.filter (fun g => g.count == n) := by
  induction l with
  | nil =>
    rw [insertByCount]
    by_cases hx : (x.count == n) = true
    · rw [if_pos hx]
      simp [List.filter_cons, hx]
    · rw [if_neg hx]
      simp [List.filter_cons, hx]
  | cons y ys ih =>
    rw [insertByCount]
    by_cases hxy : x.count ≤ y.count
    · rw [if_pos hxy, List.filter_cons]
    · rw [if_neg hxy, List.filter_cons]
      by_cases hx : (x.count == n) = true
      · have hyn : (y.count == n) = false := by
          rw [beq_eq_false_iff_ne]
          have hxn : x.count = n := eq_of_beq hx
          omega
        rw [if_pos hx, hyn]
        simp only [Bool.false_eq_true, if_false]
        rw [ih, if_pos hx, List.filter_cons, hyn]
        simp
      · rw [if_neg hx, ih, if_neg hx, List.filter_cons]

theorem sortByCountAsc_filter (l : List CountedGroup) (n : Nat) :
    (sortByCountAsc l).filter (fun g => g.count == n)
      = l.filter (fun g => g.count == n) := by
  induction l with
  | nil => rfl
  | cons x xs ih =>
    rw [sortByCountAsc, insertByCount_filter, List.filter_cons]
    by_cases hx : (x.count == n) = true
    · rw [if_pos hx, if_pos hx, ih]
    · rw [if_neg hx, if_neg hx, ih]

/-- C3 (amended): the collapsed serialization emits one group per distinct
catalog id in the deck — the groups' ids are a permutation of the distinct
ids in first-seen order — with each group's count the number of deck cards
with that id; counts are non-increasing along the emitted order, and the
groups of any fixed count appear in *reverse* first-seen order (Python's
stable ascending sort followed by `reverse` flips ties). -/
theorem to_serializable_counted_spec (d : Deck) :
    ((buildCardDict d.cards).map (fun g => g.mtga_id) = firstSeenIds d.cards) ∧
    (∀ g ∈ d.collapsedCards, g.count = countById d.cards g.mtga_id) ∧
    (d.collapsedCards.map (fun g => g.mtga_id)).Perm (firstSeenIds d.cards) ∧
    d.collapsedCards.Pairwise (fun a b => b.count ≤ a.count) ∧
    (∀ n : Nat, d.collapsedCards.filter (fun g => g.count == n)
      = ((buildCardDict d.cards).filter (fun g => g.count == n)).reverse) := by
  refine ⟨buildCardDict_ids d.cards, ?_, ?_, ?_, ?_⟩
  · intro g hg
    have hg' : g ∈ sortByCountAsc (buildCardDict d.cards) := by
      rw [Deck.collapsedCards] at hg
      exact (List.mem_reverse).mp hg
    exact buildCardDict_count d.cards g
      ((sortByCountAsc_perm (buildCardDict d.cards)).mem_iff.mp hg')
  · rw [Deck.collapsedCards, List.map_reverse]
    refine ((List.reverse_perm _).trans ?_)
    refine (List.Perm.map _ (sortByCountAsc_perm _)).trans ?_
    rw [buildCardDict_ids]
  · rw [Deck.collapsedCards, List.pairwise_reverse]
    exact (sortByCountAsc_sorted (buildCardDict d.cards)).imp (fun h => h)
  · intro n
    rw [Deck.collapsedCards, List.filter_reverse, sortByCountAsc_filter]

/-- C3 counterexample: on a deck holding one copy each of catalog ids 7
(first) and 9 (second), the collapsed groups — tied at count 1 — come out as
[9, 7], the reverse of first-seen order; the claim requires first-seen order
[7, 9]. -/
theorem to_serializable_counted_counterexample :
    deckTie.collapsedCards.map (fun g => g.mtga_id) = [9, 7] ∧
    deckTie.collapsedCards.map (fun g => g.count) = [1, 1] ∧
    firstSeenIds deckTie.cards = [7, 9] ∧
    deckTie.collapsedCards.map (fun g => g.mtga_id) ≠ firstSeenIds deckTie.cards := by
  decide

/-- Witness for C3 (amended): on the spec's 2×7 + 1×9 deck, the count-2 group
of id 7 comes first; the count conjunct instantiated at that group. -/
theorem to_serializable_counted_witness :
    ({ mtga_id := 7, record := { cardBolt with mtga_id := 7 }, count := 2 }
      ∈ deckTwoSevenOneNine.collapsedCards) ∧
    (2 : Nat) = countById deckTwoSevenOneNine.cards 7 :=
  ⟨by decide,
   (to_serializable_counted_spec deckTwoSevenOneNine).2.1
     { mtga_id := 7, record := { cardBolt with mtga_id := 7 }, count := 2 }
     (by decide)⟩

end Mtga
